import Mathlib

/-!
# Verification of the statsmodels GAM core (`statsmodels/gam/gam.py`)

Shallow embedding, over `ℚ`, of the penalized-IRLS optimization engine:

* `make_augmented_matrix`, `penalized_wls` — the penalty-augmented
  least-squares primitive (`gam.py`, lines 388-415);
* `fit_pirls` — the P-IRLS fitting loop (`GLMGam._fit_pirls`);
* `check_alpha` / `glmgam_init` — construction-time alpha validation;
* `glmgam_fit` — the `fit` dispatcher;
* `get_hat_matrix_diag` / `edf` — hat-matrix diagonal and effective
  degrees of freedom of `GLMGAMResults`.

External collaborators that are not part of the repository sources
(`lm.WLS`, `matrix_sqrt`, `np.sqrt`, the exponential family object,
`_check_convergence`, `_update_history`, `MultivariateGamPenalty`) are
modelled from the specification at their interface boundary; each such
definition carries a doc comment starting with "Modelled from the spec".
Machine floats are idealized as exact rationals.
-/

namespace GamCore

open Matrix BigOperators

/-! ## Generic weighted least squares (external solver `lm.WLS`) -/

/-- Computable inverse of a square rational matrix: `det⁻¹ • adjugate`.
Coincides with the true inverse whenever the determinant is nonzero. -/
def matInv {ι : Type} [Fintype ι] [DecidableEq ι] (A : Matrix ι ι ℚ) :
    Matrix ι ι ℚ :=
  A.det⁻¹ • A.adjugate

/-- Modelled from the spec: `lm.WLS(y, X, w).fit().params` (the
statsmodels linear-regression solver is not under `src/`).  The spec,
§4.1, says the solver minimizes `Σ wᵢ (yᵢ − xᵢ·β)²`; for a full-rank
problem the unique minimizer is the solution of the weighted normal
equations `Xᵀ W X β = Xᵀ W y`, which is what we take as the definition. -/
def wls_fit_params {m ι : Type} [Fintype m] [DecidableEq m]
    [Fintype ι] [DecidableEq ι]
    (X : Matrix m ι ℚ) (y w : m → ℚ) : ι → ℚ :=
  (matInv (Xᵀ * Matrix.diagonal w * X)) *ᵥ ((Xᵀ * Matrix.diagonal w) *ᵥ y)

/-- Modelled from the spec: the `normalized_cov_params` attribute of the
WLS results object, `(Xᵀ W X)⁻¹` (the auxiliary object of §4.1 holding
params and normalized covariance for reuse by the caller). -/
def wls_normalized_cov {m ι : Type} [Fintype m] [DecidableEq m]
    [Fintype ι] [DecidableEq ι]
    (X : Matrix m ι ℚ) (w : m → ℚ) : Matrix ι ι ℚ :=
  matInv (Xᵀ * Matrix.diagonal w * X)

/-- The weighted residual sum of squares `Σ wᵢ (yᵢ − xᵢ·β)²` that the
external WLS solver minimizes. -/
def wlsObjective {m ι : Type} [Fintype m] [Fintype ι]
    (X : Matrix m ι ℚ) (y w : m → ℚ) (β : ι → ℚ) : ℚ :=
  ∑ i, w i * (y i - (X *ᵥ β) i) ^ 2

lemma matInv_mul {ι : Type} [Fintype ι] [DecidableEq ι]
    (A : Matrix ι ι ℚ) (h : A.det ≠ 0) : matInv A * A = 1 := by
  rw [matInv, Matrix.smul_mul, Matrix.adjugate_mul, smul_smul,
    inv_mul_cancel₀ h, one_smul]

lemma mul_matInv {ι : Type} [Fintype ι] [DecidableEq ι]
    (A : Matrix ι ι ℚ) (h : A.det ≠ 0) : A * matInv A = 1 := by
  rw [matInv, Matrix.mul_smul, Matrix.mul_adjugate, smul_smul,
    inv_mul_cancel₀ h, one_smul]

lemma transpose_mul_diagonal_apply {m ι : Type} [Fintype m] [DecidableEq m]
    [Fintype ι] (X : Matrix m ι ℚ) (w : m → ℚ) (j : ι) (i : m) :
    (Xᵀ * Matrix.diagonal w) j i = X i j * w i := by
  simp [Matrix.mul_apply, Matrix.diagonal_apply, Matrix.transpose_apply,
    Finset.sum_ite_eq]

/-- Normal equations: the residual of `wls_fit_params` is `W`-orthogonal
to the column space of `X`. -/
lemma wls_normal_equations {m ι : Type} [Fintype m] [DecidableEq m]
    [Fintype ι] [DecidableEq ι]
    (X : Matrix m ι ℚ) (y w : m → ℚ)
    (hdet : (Xᵀ * Matrix.diagonal w * X).det ≠ 0) :
    (Xᵀ * Matrix.diagonal w) *ᵥ (y - X *ᵥ wls_fit_params X y w) = 0 := by
  rw [Matrix.mulVec_sub, wls_fit_params, Matrix.mulVec_mulVec,
    Matrix.mulVec_mulVec, mul_matInv _ hdet, Matrix.one_mulVec, sub_self]

/-- The external WLS solver's output minimizes the weighted residual sum
of squares, provided the weights are nonnegative and the weighted normal
matrix is nonsingular. -/
theorem wls_optimal {m ι : Type} [Fintype m] [DecidableEq m]
    [Fintype ι] [DecidableEq ι]
    (X : Matrix m ι ℚ) (y w : m → ℚ)
    (hw : ∀ i, 0 ≤ w i)
    (hdet : (Xᵀ * Matrix.diagonal w * X).det ≠ 0) (β : ι → ℚ) :
    wlsObjective X y w (wls_fit_params X y w) ≤ wlsObjective X y w β := by
  set βs := wls_fit_params X y w with hβs
  set r : m → ℚ := y - X *ᵥ βs with hr
  set d : ι → ℚ := β - βs with hd
  have hXβ : X *ᵥ β = X *ᵥ βs + X *ᵥ d := by
    rw [hd, Matrix.mulVec_sub]; abel
  have hcross : ∑ i, w i * (r i * (X *ᵥ d) i) = 0 := by
    have hne := wls_normal_equations X y w hdet
    have hterm : ∀ i, w i * (r i * (X *ᵥ d) i)
        = ∑ j, X i j * w i * r i * d j := by
      intro i
      rw [Matrix.mulVec, Matrix.dotProduct, Finset.mul_sum, Finset.mul_sum]
      exact Finset.sum_congr rfl fun j _ => by ring
    calc ∑ i, w i * (r i * (X *ᵥ d) i)
        = ∑ i, ∑ j, X i j * w i * r i * d j :=
          Finset.sum_congr rfl fun i _ => hterm i
      _ = ∑ j, (∑ i, X i j * w i * r i) * d j := by
          rw [Finset.sum_comm]
          exact Finset.sum_congr rfl fun j _ => by rw [Finset.sum_mul]
      _ = ∑ j, ((Xᵀ * Matrix.diagonal w) *ᵥ r) j * d j := by
          refine Finset.sum_congr rfl fun j _ => ?_
          rw [Matrix.mulVec, Matrix.dotProduct]
          congr 1
          exact Finset.sum_congr rfl fun i _ => by
            rw [transpose_mul_diagonal_apply]
      _ = 0 := by
          rw [← hr] at hne
          simp [hne]
  have hexp : wlsObjective X y w β
      = wlsObjective X y w βs
        - 2 * ∑ i, w i * (r i * (X *ᵥ d) i)
        + ∑ i, w i * ((X *ᵥ d) i) ^ 2 := by
    rw [wlsObjective, wlsObjective]
    have : ∀ i, w i * (y i - (X *ᵥ β) i) ^ 2
        = w i * (y i - (X *ᵥ βs) i) ^ 2
          - 2 * (w i * (r i * (X *ᵥ d) i))
          + w i * ((X *ᵥ d) i) ^ 2 := by
      intro i
      have hri : r i = y i - (X *ᵥ βs) i := by rw [hr]; rfl
      have hXi : (X *ᵥ β) i = (X *ᵥ βs) i + (X *ᵥ d) i := by
        rw [hXβ]; rfl
      rw [hXi, ← hri]
      have hyi : y i - ((X *ᵥ βs) i + (X *ᵥ d) i) = r i - (X *ᵥ d) i := by
        rw [hri]; ring
      rw [hyi]; ring
    rw [Finset.sum_congr rfl fun i _ => this i, Finset.sum_add_distrib,
      Finset.sum_sub_distrib, ← Finset.mul_sum]
  rw [hexp, hcross]
  have hnn : 0 ≤ ∑ i, w i * ((X *ᵥ d) i) ^ 2 :=
    Finset.sum_nonneg fun i _ => mul_nonneg (hw i) (sq_nonneg _)
  linarith

/-! ## The penalty-augmented solver (`gam.py` lines 388-415)

`matrix_sqrt` (statsmodels.tools.linalg) and `np.sqrt` are external
numerical primitives.  Modelled from the spec, §6: `sqrt(S) → R` such
that `RᵗR = S`, for any PSD `S` including the zero matrix (for which it
must return a zero matrix of matching shape).  We pass the matrix root
`rs` and the scalar square-root function `sqrtFn` as explicit arguments;
theorems constrain them by the spec's defining equations. -/

/-- Embedding of `make_augmented_matrix(x, y, s, w)` (`gam.py` 399-415),
with the external `matrix_sqrt(s)` output passed as `rs`:
`x1 = vstack([x, rs])`, `y1 = concat(y, zeros)`,
`w1 = sqrt(concat(w, ones))` — note the source applies the elementwise
square root `np.sqrt` (modelled by `sqrtFn`) to the stacked weights. -/
def make_augmented_matrix {n p : ℕ} (sqrtFn : ℚ → ℚ)
    (rs : Matrix (Fin p) (Fin p) ℚ)
    (x : Matrix (Fin n) (Fin p) ℚ) (y w : Fin n → ℚ) :
    Matrix (Fin n ⊕ Fin p) (Fin p) ℚ × (Fin n ⊕ Fin p → ℚ)
      × (Fin n ⊕ Fin p → ℚ) :=
  (Matrix.of (Sum.elim x rs),
   Sum.elim y (fun _ => 0),
   fun i => sqrtFn (Sum.elim w (fun _ => 1) i))

/-- Embedding of `penalized_wls(x, y, s, weights)` (`gam.py` 388-396):
builds the augmented system for the doubled penalty `2 * s` and solves
ordinary weighted least squares on it.  The source computes
`rs2 = matrix_sqrt(2 * s)` via the external primitive; `rs2` is passed
here directly and is constrained by `rs2ᵀ * rs2 = 2 • s` in theorems.
Returns `(params, normalized_cov_params)` of the WLS results object. -/
def penalized_wls_results {n p : ℕ} (sqrtFn : ℚ → ℚ)
    (rs2 : Matrix (Fin p) (Fin p) ℚ)
    (x : Matrix (Fin n) (Fin p) ℚ) (y w : Fin n → ℚ) :
    (Fin p → ℚ) × Matrix (Fin p) (Fin p) ℚ :=
  let a := make_augmented_matrix sqrtFn rs2 x y w
  (wls_fit_params a.1 a.2.1 a.2.2, wls_normalized_cov a.1 a.2.2)

/-- The coefficient vector returned by `penalized_wls`. -/
def penalized_wls {n p : ℕ} (sqrtFn : ℚ → ℚ)
    (rs2 : Matrix (Fin p) (Fin p) ℚ)
    (x : Matrix (Fin n) (Fin p) ℚ) (y w : Fin n → ℚ) : Fin p → ℚ :=
  (penalized_wls_results sqrtFn rs2 x y w).1

/-- The objective the specification attributes to `penalized_wls`,
following the spec's words (§4.1): `Σ wᵢ (yᵢ − xᵢ·β)² + βᵗ S β`.
Stated only to be compared against the source's behaviour. -/
def claimObjective {n p : ℕ} (x : Matrix (Fin n) (Fin p) ℚ)
    (y w : Fin n → ℚ) (S : Matrix (Fin p) (Fin p) ℚ) (β : Fin p → ℚ) : ℚ :=
  (∑ i, w i * (y i - (x *ᵥ β) i) ^ 2) + β ⬝ᵥ (S *ᵥ β)

/-- The objective that the source's `penalized_wls` actually minimizes:
square-rooted observation weights and a doubled penalty,
`Σ sqrt(wᵢ) (yᵢ − xᵢ·β)² + 2 βᵗ S β`. -/
def codePenObjective {n p : ℕ} (sqrtFn : ℚ → ℚ)
    (x : Matrix (Fin n) (Fin p) ℚ) (y w : Fin n → ℚ)
    (S : Matrix (Fin p) (Fin p) ℚ) (β : Fin p → ℚ) : ℚ :=
  (∑ i, sqrtFn (w i) * (y i - (x *ᵥ β) i) ^ 2) + 2 * (β ⬝ᵥ (S *ᵥ β))

lemma sum_sq_mulVec {m ι : Type} [Fintype m] [Fintype ι] [DecidableEq ι]
    (A : Matrix m ι ℚ) (v : ι → ℚ) :
    ∑ j, ((A *ᵥ v) j) ^ 2 = v ⬝ᵥ ((Aᵀ * A) *ᵥ v) := by
  have h1 : ∀ j, ((A *ᵥ v) j) ^ 2 = (A *ᵥ v) j * (A *ᵥ v) j :=
    fun j => sq ((A *ᵥ v) j)
  calc ∑ j, ((A *ᵥ v) j) ^ 2
      = (A *ᵥ v) ⬝ᵥ (A *ᵥ v) := Finset.sum_congr rfl fun j _ => h1 j
    _ = ((A *ᵥ v) ᵥ* A) ⬝ᵥ v := Matrix.dotProduct_mulVec _ A v
    _ = (Aᵀ *ᵥ (A *ᵥ v)) ⬝ᵥ v := by rw [Matrix.mulVec_transpose]
    _ = ((Aᵀ * A) *ᵥ v) ⬝ᵥ v := by rw [Matrix.mulVec_mulVec]
    _ = v ⬝ᵥ ((Aᵀ * A) *ᵥ v) := Matrix.dotProduct_comm _ v

/-- The augmented weighted residual sum of squares equals the
square-rooted-weights penalized objective, when `rs2ᵀ rs2 = 2 S`. -/
lemma aug_objective_eq_codePen {n p : ℕ} (sqrtFn : ℚ → ℚ)
    (rs2 : Matrix (Fin p) (Fin p) ℚ)
    (x : Matrix (Fin n) (Fin p) ℚ) (y w : Fin n → ℚ)
    (S : Matrix (Fin p) (Fin p) ℚ)
    (h1 : sqrtFn 1 = 1) (hR : rs2ᵀ * rs2 = (2 : ℚ) • S) (β : Fin p → ℚ) :
    wlsObjective (make_augmented_matrix sqrtFn rs2 x y w).1
      (make_augmented_matrix sqrtFn rs2 x y w).2.1
      (make_augmented_matrix sqrtFn rs2 x y w).2.2 β
      = codePenObjective sqrtFn x y w S β := by
  rw [wlsObjective, codePenObjective, Fintype.sum_sum_type]
  have htop : ∀ i : Fin n,
      (make_augmented_matrix sqrtFn rs2 x y w).2.2 (Sum.inl i)
        * ((make_augmented_matrix sqrtFn rs2 x y w).2.1 (Sum.inl i)
            - ((make_augmented_matrix sqrtFn rs2 x y w).1 *ᵥ β) (Sum.inl i)) ^ 2
      = sqrtFn (w i) * (y i - (x *ᵥ β) i) ^ 2 := by
    intro i; rfl
  have hbot : ∀ j : Fin p,
      (make_augmented_matrix sqrtFn rs2 x y w).2.2 (Sum.inr j)
        * ((make_augmented_matrix sqrtFn rs2 x y w).2.1 (Sum.inr j)
            - ((make_augmented_matrix sqrtFn rs2 x y w).1 *ᵥ β) (Sum.inr j)) ^ 2
      = ((rs2 *ᵥ β) j) ^ 2 := by
    intro j
    show sqrtFn 1 * ((0 : ℚ) - (rs2 *ᵥ β) j) ^ 2 = ((rs2 *ᵥ β) j) ^ 2
    rw [h1, one_mul, zero_sub, neg_sq]
  rw [Finset.sum_congr rfl fun i _ => htop i,
    Finset.sum_congr rfl fun j _ => hbot j, sum_sq_mulVec, hR]
  congr 1
  rw [Matrix.smul_mulVec_assoc, Matrix.dotProduct_smul, smul_eq_mul]

lemma quad_form_entry {m ι : Type} [Fintype m] [DecidableEq m] [Fintype ι]
    (A : Matrix m ι ℚ) (d : m → ℚ) (j k : ι) :
    (Aᵀ * Matrix.diagonal d * A) j k = ∑ s, A s j * d s * A s k := by
  rw [Matrix.mul_apply]
  exact Finset.sum_congr rfl fun s _ => by
    rw [transpose_mul_diagonal_apply]

lemma weighted_rhs_entry {m ι : Type} [Fintype m] [DecidableEq m] [Fintype ι]
    (A : Matrix m ι ℚ) (d v : m → ℚ) (j : ι) :
    ((Aᵀ * Matrix.diagonal d) *ᵥ v) j = ∑ s, A s j * d s * v s := by
  rw [Matrix.mulVec, Matrix.dotProduct]
  exact Finset.sum_congr rfl fun s _ => by
    rw [transpose_mul_diagonal_apply]

/-- The augmented normal matrix splits into the data block and the
penalty block. -/
lemma aug_normal_matrix {n p : ℕ} (sqrtFn : ℚ → ℚ)
    (rs : Matrix (Fin p) (Fin p) ℚ)
    (x : Matrix (Fin n) (Fin p) ℚ) (y w : Fin n → ℚ) :
    (make_augmented_matrix sqrtFn rs x y w).1ᵀ
        * Matrix.diagonal (make_augmented_matrix sqrtFn rs x y w).2.2
        * (make_augmented_matrix sqrtFn rs x y w).1
      = xᵀ * Matrix.diagonal (fun i => sqrtFn (w i)) * x
        + rsᵀ * Matrix.diagonal (fun _ : Fin p => sqrtFn 1) * rs := by
  ext j k
  rw [Matrix.add_apply, quad_form_entry, quad_form_entry, quad_form_entry,
    Fintype.sum_sum_type]
  rfl

/-- The augmented weighted right-hand side has no penalty contribution
(the appended responses are zero). -/
lemma aug_rhs_vec {n p : ℕ} (sqrtFn : ℚ → ℚ)
    (rs : Matrix (Fin p) (Fin p) ℚ)
    (x : Matrix (Fin n) (Fin p) ℚ) (y w : Fin n → ℚ) :
    ((make_augmented_matrix sqrtFn rs x y w).1ᵀ
        * Matrix.diagonal (make_augmented_matrix sqrtFn rs x y w).2.2)
        *ᵥ (make_augmented_matrix sqrtFn rs x y w).2.1
      = (xᵀ * Matrix.diagonal (fun i => sqrtFn (w i))) *ᵥ y := by
  funext j
  rw [weighted_rhs_entry, weighted_rhs_entry, Fintype.sum_sum_type]
  have hbot : ∀ r : Fin p,
      (make_augmented_matrix sqrtFn rs x y w).1 (Sum.inr r) j
          * (make_augmented_matrix sqrtFn rs x y w).2.2 (Sum.inr r)
          * (make_augmented_matrix sqrtFn rs x y w).2.1 (Sum.inr r) = 0 := by
    intro r
    show rs r j * sqrtFn 1 * 0 = 0
    ring
  rw [Finset.sum_congr rfl fun r _ => hbot r, Finset.sum_const_zero, add_zero]
  rfl

/-! ## The P-IRLS fitting loop (`GLMGam._fit_pirls`, `gam.py` 272-360) -/

/-- Modelled from the spec (§4.2, §6): the exponential-family capability
object consumed by the loop — `statsmodels.genmod.families` is not under
`src/`.  `starting_mu` is the family's starting-value rule, `predict`
the canonical mapping μ ↦ linear predictor, `fitted` its inverse
(linear predictor ↦ μ), `deviance` the model deviance, `weights` the
IRLS weight function, `link_deriv` the link derivative `link.deriv`,
and `estimate_scale` the deviance-based scale estimator used when
`scaletype = 'dev'` (`GLM.estimate_scale`, also not under `src/`). -/
structure ExpFamily (n : ℕ) where
  starting_mu : (Fin n → ℚ) → Fin n → ℚ
  predict : (Fin n → ℚ) → Fin n → ℚ
  fitted : (Fin n → ℚ) → Fin n → ℚ
  deviance : (Fin n → ℚ) → (Fin n → ℚ) → ℚ
  weights : (Fin n → ℚ) → Fin n → ℚ
  link_deriv : (Fin n → ℚ) → Fin n → ℚ
  estimate_scale : (Fin n → ℚ) → ℚ

/-- The data of one `_fit_pirls` invocation that stays fixed across
iterations: family, response, design matrix `wlsexog = self.exog`,
the external square root `rs2 = matrix_sqrt(2 * spl_s)` of the doubled
penalty matrix, the external scalar square root `np.sqrt`, the offset
`self._offset_exposure` and the prior weights `self.data_weights`
(all ones when the `weights` argument is `None`). -/
structure PirlsProblem (n p : ℕ) where
  fam : ExpFamily n
  endog : Fin n → ℚ
  wlsexog : Matrix (Fin n) (Fin p) ℚ
  rs2 : Matrix (Fin p) (Fin p) ℚ
  sqrtFn : ℚ → ℚ
  offset : Fin n → ℚ
  data_weights : Fin n → ℚ

/-- Mutable per-iteration state of the loop.  The deviance history uses
`none` for the `np.inf` sentinel pushed before any fit. -/
structure LoopState (n p : ℕ) where
  lin_pred : Fin n → ℚ
  mu : Fin n → ℚ
  hist_params : List (Option (Fin p → ℚ))
  hist_dev : List (Option ℚ)
  wls_params : Option (Fin p → ℚ)
  wls_ncov : Option (Matrix (Fin p) (Fin p) ℚ)
  converged : Bool

/-- Errors raised by the loop. -/
inductive FitError where
  | perfectSeparation
deriving DecidableEq

/-- One iteration body of the `for iteration in range(maxiter)` loop
(`gam.py` 317-336): IRLS weights `data_weights * family.weights(mu)`,
working response `lin_pred + link.deriv(mu) * (endog - mu) - offset`,
penalized solve, update of the linear predictor and μ, and the history
append.  The history append embeds `GLM._update_history` — modelled
from the spec (§4.2 step 5): append `(coefficients, deviance)`. -/
def pirls_step {n p : ℕ} (P : PirlsProblem n p) (st : LoopState n p) :
    LoopState n p :=
  let wt : Fin n → ℚ := fun i => P.data_weights i * P.fam.weights st.mu i
  let wlsendog : Fin n → ℚ := fun i =>
    st.lin_pred i + P.fam.link_deriv st.mu i * (P.endog i - st.mu i)
      - P.offset i
  let res := penalized_wls_results P.sqrtFn P.rs2 P.wlsexog wlsendog wt
  let lin_pred' : Fin n → ℚ := fun i => (P.wlsexog *ᵥ res.1) i + P.offset i
  let mu' := P.fam.fitted lin_pred'
  { lin_pred := lin_pred'
    mu := mu'
    hist_params := st.hist_params ++ [some res.1]
    hist_dev := st.hist_dev ++ [some (P.fam.deviance P.endog mu')]
    wls_params := some res.1
    wls_ncov := some res.2
    converged := st.converged }

/-- `np.allclose` tolerance for the perfect-separation test:
`np.allclose(mu - endog, 0)` with numpy defaults means
`|μᵢ − yᵢ| ≤ atol = 1e-8` (the `rtol` term vanishes against 0). -/
def sepTol : ℚ := 1 / 100000000

/-- The degenerate check of `gam.py` line 339:
`endog.squeeze().ndim == 1 and np.allclose(mu - endog, 0)`.  For a
one-dimensional response of length `n`, `squeeze` keeps dimension 1
exactly when `n ≠ 1` (a length-one axis is dropped to a 0-d array). -/
def perfect_sep_check {n : ℕ} (endog mu : Fin n → ℚ) : Bool :=
  decide (n ≠ 1) && decide (∀ i, |mu i - endog i| ≤ sepTol)

/-- Modelled from the spec (§4.2 step 7): `_check_convergence` (imported
from `generalized_linear_model`, not under `src/`) compares the two most
recent deviance values; with the `rtol = 0` call site this is an
absolute change below the tolerance.  The comparison is false against
the infinity sentinel. -/
def check_convergence (dev : List (Option ℚ)) (tol : ℚ) : Bool :=
  match dev.dropLast.getLast?, dev.getLast? with
  | some (some prev), some (some curr) => decide (|curr - prev| ≤ tol)
  | _, _ => false

/-- The `for iteration in range(maxiter)` loop.  `k` is the value the
Python loop variable `iteration` would take next; the returned natural
number is the final value of `iteration` (`k - 1` when the range is
exhausted, mirroring Python's loop variable after a completed loop). -/
def runLoop {n p : ℕ} (P : PirlsProblem n p) (tol : ℚ) :
    ℕ → ℕ → LoopState n p → Except FitError (LoopState n p × ℕ)
  | k, 0, st => .ok (st, k - 1)
  | k, rem + 1, st =>
    let st' := pirls_step P st
    if perfect_sep_check P.endog st'.mu then .error .perfectSeparation
    else if check_convergence st'.hist_dev tol then
      .ok ({ st' with converged := true }, k)
    else runLoop P tol (k + 1) rem { st' with converged := false }

/-- One non-terminating iteration: the step with the convergence flag
assigned `false`, as the loop stores it before recursing. -/
def pirls_step_noconv {n p : ℕ} (P : PirlsProblem n p)
    (st : LoopState n p) : LoopState n p :=
  { pirls_step P st with converged := false }

/-- The INITIALIZING linear predictor (`gam.py` 298-303): from the
family's starting values when `start_params is None`, else
`X·start_params + offset`. -/
def pirls_init_linpred {n p : ℕ} (P : PirlsProblem n p)
    (start_params : Option (Fin p → ℚ)) : Fin n → ℚ :=
  match start_params with
  | none => P.fam.predict (P.fam.starting_mu P.endog)
  | some sp => fun i => (P.wlsexog *ᵥ sp) i + P.offset i

/-- The INITIALIZING μ (`gam.py` 298-303). -/
def pirls_init_mu {n p : ℕ} (P : PirlsProblem n p)
    (start_params : Option (Fin p → ℚ)) : Fin n → ℚ :=
  match start_params with
  | none => P.fam.starting_mu P.endog
  | some _ => P.fam.fitted (pirls_init_linpred P start_params)

/-- The loop state after initialization (`gam.py` 298-308): history
holds `params = [None, start_params]` and
`deviance = [np.inf, initial deviance]`. -/
def pirls_init_state {n p : ℕ} (P : PirlsProblem n p)
    (start_params : Option (Fin p → ℚ)) : LoopState n p :=
  { lin_pred := pirls_init_linpred P start_params
    mu := pirls_init_mu P start_params
    hist_params := [none, start_params]
    hist_dev := [none, some (P.fam.deviance P.endog (pirls_init_mu P start_params))]
    wls_params := none
    wls_ncov := none
    converged := false }

/-- The result object assembled at loop termination (`gam.py` 347-360):
final params and normalized covariance from the last WLS solve, scale
from the family's deviance-based estimator at the final μ, the history,
`history['iteration'] = iteration + 1`, the convergence flag and the
method label.  `normalized_cov_params` is `none` on the `maxiter == 0`
path, where `lm.RegressionResults(self, start_params, None)` is built. -/
structure FitResult (n p : ℕ) where
  params : Option (Fin p → ℚ)
  normalized_cov_params : Option (Matrix (Fin p) (Fin p) ℚ)
  scale : ℚ
  mu : Fin n → ℚ
  hist_params : List (Option (Fin p → ℚ))
  hist_dev : List (Option ℚ)
  iteration : ℕ
  converged : Bool
  method : String
deriving DecidableEq

/-- Embedding of `GLMGam._fit_pirls` (`gam.py` 272-360). -/
def fit_pirls {n p : ℕ} (P : PirlsProblem n p)
    (start_params : Option (Fin p → ℚ)) (maxiter : ℕ) (tol : ℚ) :
    Except FitError (FitResult n p) :=
  if maxiter = 0 then
    .ok { params := start_params
          normalized_cov_params := none
          scale := P.fam.estimate_scale
            (P.fam.fitted (pirls_init_linpred P start_params))
          mu := P.fam.fitted (pirls_init_linpred P start_params)
          hist_params := [none, start_params]
          hist_dev := [none,
            some (P.fam.deviance P.endog (pirls_init_mu P start_params))]
          iteration := 1
          converged := false
          method := "PIRLS" }
  else
    match runLoop P tol 0 maxiter (pirls_init_state P start_params) with
    | .error e => .error e
    | .ok (st, it) =>
      .ok { params := st.wls_params
            normalized_cov_params := st.wls_ncov
            scale := P.fam.estimate_scale st.mu
            mu := st.mu
            hist_params := st.hist_params
            hist_dev := st.hist_dev
            iteration := it + 1
            converged := st.converged
            method := "PIRLS" }

/-! ## Model construction and `fit` dispatch (`gam.py` 203-269) -/

/-- Construction-time error taxonomy (spec §7). -/
inductive GamError where
  | invalidAlphaLength
deriving DecidableEq

/-- The duck-typed `alpha` argument of `GLMGam.__init__`: either a
scalar (non-iterable) or a sequence. -/
inductive AlphaSpec where
  | scalar (a : ℚ)
  | seq (l : List ℚ)

/-- Embedding of `GLMGam._check_alpha` (`gam.py` 227-234): a scalar is
broadcast to one value per smooth term; a sequence is converted to a
list unchanged — no length validation happens here. -/
def check_alpha (k_smooth : ℕ) : AlphaSpec → List ℚ
  | .scalar a => List.replicate k_smooth a
  | .seq l => l

/-- Modelled from the spec (§7): `MultivariateGamPenalty`
(`statsmodels/gam/gam_penalties.py`, not under `src/`) validates at
construction that the alpha sequence length equals the number of smooth
terms, failing with `InvalidAlphaLength` otherwise, before any fitting
work begins. -/
def multivariate_gam_penalty_init (k_smooth : ℕ) (alpha : List ℚ) :
    Except GamError Unit :=
  if alpha.length = k_smooth then .ok () else .error .invalidAlphaLength

/-- Embedding of the alpha-handling path of `GLMGam.__init__`
(`gam.py` 203-225): `_check_alpha` normalizes the input, then the
`MultivariateGamPenalty` is built (which validates the length) before
`super().__init__` — i.e. before any fitting work.  Returns the
validated alpha list. -/
def glmgam_init (k_smooth : ℕ) (alphaIn : AlphaSpec) :
    Except GamError (List ℚ) :=
  let alpha := check_alpha k_smooth alphaIn
  match multivariate_gam_penalty_init k_smooth alpha with
  | .ok _ => .ok alpha
  | .error e => .error e

/-- `_fit_pirls` defaults (`gam.py` 272-274): `start_params=None`,
`maxiter=100`. -/
def pirls_default_maxiter : ℕ := 100

/-- `_fit_pirls` default `tol=1e-8`. -/
def pirls_default_tol : ℚ := 1 / 100000000

/-- Python's `str.lower()` applied to the method name, modelled as the
characterwise lowercase map (identical to `.lower()` on the ASCII
method labels involved). -/
def str_lower (s : String) : String := String.mk (s.data.map Char.toLower)

/-- Embedding of `GLMGam.fit` (`gam.py` 236-269): when
`method.lower() == 'pirls'` it calls
`self._fit_pirls(self.alpha, cov_type=..., cov_kwds=..., **kwargs)` —
forwarding neither `start_params` nor `maxiter` nor `tol`, so the
P-IRLS path runs with `_fit_pirls`'s own defaults; otherwise it
delegates to the external `GLM.fit` (not under `src/`), modelled as the
abstract argument `superFit`. -/
def glmgam_fit {n p : ℕ} (P : PirlsProblem n p)
    (superFit : Option (Fin p → ℚ) → ℕ → ℚ →
      Except FitError (FitResult n p))
    (start_params : Option (Fin p → ℚ)) (maxiter : ℕ)
    (method : String) (tol : ℚ) : Except FitError (FitResult n p) :=
  if str_lower method = "pirls" then
    fit_pirls P none pirls_default_maxiter pirls_default_tol
  else superFit start_params maxiter tol

/-! ## Hat matrix diagonal and edf (`GLMGAMResults`, `gam.py` 154-188) -/

/-- `wexog = np.sqrt(weights)[:, None] * self.model.exog`
(`gam.py` 172), with the external `np.sqrt` modelled by `sqrtFn`. -/
def wexog_of {n p : ℕ} (sqrtFn : ℚ → ℚ) (weights : Fin n → ℚ)
    (exog : Matrix (Fin n) (Fin p) ℚ) : Matrix (Fin n) (Fin p) ℚ :=
  Matrix.of fun i j => sqrtFn (weights i) * exog i j

/-- The elementwise matrix `wexog * hess_inv.dot(wexog.T).T` of
`gam.py` line 183, with `hess_inv = normalized_cov_params * scale`
(line 181).  `weights` is the output of the external
`model.hessian_factor(params, observed)`. -/
def hat_matrix_terms {n p : ℕ} (sqrtFn : ℚ → ℚ) (weights : Fin n → ℚ)
    (exog : Matrix (Fin n) (Fin p) ℚ) (ncov : Matrix (Fin p) (Fin p) ℚ)
    (scale : ℚ) : Matrix (Fin n) (Fin p) ℚ :=
  Matrix.of fun i j =>
    wexog_of sqrtFn weights exog i j
      * ((scale • ncov) * (wexog_of sqrtFn weights exog)ᵀ) j i

/-- Embedding of `GLMGAMResults.get_hat_matrix_diag` with the default
`_axis = 1` (`gam.py` 154-184): row sums of `hat_matrix_terms`. -/
def get_hat_matrix_diag {n p : ℕ} (sqrtFn : ℚ → ℚ) (weights : Fin n → ℚ)
    (exog : Matrix (Fin n) (Fin p) ℚ) (ncov : Matrix (Fin p) (Fin p) ℚ)
    (scale : ℚ) : Fin n → ℚ :=
  fun i => ∑ j, hat_matrix_terms sqrtFn weights exog ncov scale i j

/-- Embedding of `GLMGAMResults.edf` (`gam.py` 186-188):
`get_hat_matrix_diag(_axis=0)`, i.e. column sums of the same terms. -/
def edf {n p : ℕ} (sqrtFn : ℚ → ℚ) (weights : Fin n → ℚ)
    (exog : Matrix (Fin n) (Fin p) ℚ) (ncov : Matrix (Fin p) (Fin p) ℚ)
    (scale : ℚ) : Fin p → ℚ :=
  fun j => ∑ i, hat_matrix_terms sqrtFn weights exog ncov scale i j

/-! ## Evaluation helpers for concrete one-column examples -/

lemma penalized_wls_eq {n p : ℕ} (sqrtFn : ℚ → ℚ)
    (rs2 : Matrix (Fin p) (Fin p) ℚ)
    (x : Matrix (Fin n) (Fin p) ℚ) (y w : Fin n → ℚ) :
    penalized_wls sqrtFn rs2 x y w
      = wls_fit_params (make_augmented_matrix sqrtFn rs2 x y w).1
          (make_augmented_matrix sqrtFn rs2 x y w).2.1
          (make_augmented_matrix sqrtFn rs2 x y w).2.2 := rfl

lemma wls_fit_params_p1 {m : Type} [Fintype m] [DecidableEq m]
    (X : Matrix m (Fin 1) ℚ) (y w : m → ℚ) :
    wls_fit_params X y w
      = fun _ => (∑ s, X s 0 * w s * X s 0)⁻¹ * ∑ s, X s 0 * w s * y s := by
  funext j
  have hj : j = 0 := Fin.eq_zero j
  subst hj
  rw [wls_fit_params, Matrix.mulVec, Matrix.dotProduct, Fin.sum_univ_one,
    matInv, Matrix.smul_apply, Matrix.adjugate_fin_one, Matrix.one_apply_eq,
    smul_eq_mul, mul_one, Matrix.det_fin_one, quad_form_entry,
    weighted_rhs_entry]

/-- A concrete stand-in for the external `np.sqrt` on the rational
values appearing in the concrete examples below. -/
def sqrtFn0 : ℚ → ℚ := fun q => if q = 1 then 1 else if q = 4 then 2 else 0

lemma sqrtFn0_one : sqrtFn0 1 = 1 := by norm_num [sqrtFn0]

lemma sqrtFn0_four : sqrtFn0 4 = 2 := by norm_num [sqrtFn0]

/-- Concrete evaluation: for `X=[[1]], y=[1], w=[1]` and the external
root `rs2=[[2]]` of the doubled penalty `2S=[[4]]`, the solver returns
`[1/5]`. -/
lemma pwls_eval_one :
    penalized_wls sqrtFn0 !![2] !![(1 : ℚ)] ![1] ![1] = ![1/5] := by
  rw [penalized_wls_eq, wls_fit_params_p1]
  funext j
  rw [Fintype.sum_sum_type, Fintype.sum_sum_type, Fin.sum_univ_one,
    Fin.sum_univ_one, Fin.sum_univ_one, Fin.sum_univ_one]
  norm_num [make_augmented_matrix, sqrtFn0]

/-! ## Claims C1, C2, C3: the penalty-augmented solver -/

/-- **C1** (counterexample).  At `X = [[1]]`, `y = [1]`, `w = [1]`,
`S = [[2]]` — with the external `matrix_sqrt(2·S) = [[2]]`, a genuine
square root of `2S = [[4]]` — the coefficient `[1/5]` returned by
`penalized_wls` does not minimize the spec's objective
`Σ wᵢ (yᵢ − xᵢ·β)² + βᵗ S β`: the vector `β = [1/3]` attains `2/3`,
strictly below the returned vector's value `18/25`. -/
theorem penalized_wls_claim_objective_counterexample :
    ¬ (∀ β : Fin 1 → ℚ,
      claimObjective !![(1 : ℚ)] ![1] ![1] !![2]
          (penalized_wls sqrtFn0 !![2] !![(1 : ℚ)] ![1] ![1])
        ≤ claimObjective !![(1 : ℚ)] ![1] ![1] !![2] β) := by
  intro h
  have h3 := h ![1/3]
  rw [pwls_eval_one] at h3
  rw [claimObjective, claimObjective, Fin.sum_univ_one, Fin.sum_univ_one,
    Matrix.dotProduct, Matrix.dotProduct, Fin.sum_univ_one,
    Fin.sum_univ_one, Matrix.mulVec, Matrix.mulVec, Matrix.mulVec,
    Matrix.dotProduct, Matrix.dotProduct, Matrix.dotProduct,
    Fin.sum_univ_one, Fin.sum_univ_one, Fin.sum_univ_one] at h3
  norm_num at h3

/-- **C1** (amended).  What `penalized_wls(x, y, s, weights)` actually
minimizes is the objective with square-rooted observation weights and a
doubled penalty, `Σ sqrt(wᵢ) (yᵢ − xᵢ·β)² + 2 βᵗ S β`: the source takes
`np.sqrt` of the stacked weights and augments with `matrix_sqrt(2*s)`.
Hypotheses: the external scalar root maps `1` to `1` and is nonnegative
on the weights, the external matrix root satisfies `rs2ᵀ rs2 = 2 S`, and
the augmented normal matrix is nonsingular. -/
lemma pwls_codePen_min {n p : ℕ} (sqrtFn : ℚ → ℚ)
    (rs2 S : Matrix (Fin p) (Fin p) ℚ)
    (x : Matrix (Fin n) (Fin p) ℚ) (y w : Fin n → ℚ)
    (h1 : sqrtFn 1 = 1) (hw : ∀ i, 0 ≤ sqrtFn (w i))
    (hR : rs2ᵀ * rs2 = (2 : ℚ) • S)
    (hdet : ((make_augmented_matrix sqrtFn rs2 x y w).1ᵀ
        * Matrix.diagonal (make_augmented_matrix sqrtFn rs2 x y w).2.2
        * (make_augmented_matrix sqrtFn rs2 x y w).1).det ≠ 0)
    (β : Fin p → ℚ) :
    codePenObjective sqrtFn x y w S (penalized_wls sqrtFn rs2 x y w)
      ≤ codePenObjective sqrtFn x y w S β := by
  have hwa : ∀ i, 0 ≤ (make_augmented_matrix sqrtFn rs2 x y w).2.2 i := by
    rintro (i | j)
    · exact hw i
    · show (0 : ℚ) ≤ sqrtFn 1
      rw [h1]; exact zero_le_one
  have hopt := wls_optimal (make_augmented_matrix sqrtFn rs2 x y w).1
    (make_augmented_matrix sqrtFn rs2 x y w).2.1
    (make_augmented_matrix sqrtFn rs2 x y w).2.2 hwa hdet β
  rw [aug_objective_eq_codePen sqrtFn rs2 x y w S h1 hR,
    aug_objective_eq_codePen sqrtFn rs2 x y w S h1 hR] at hopt
  exact hopt

lemma hw_ones : ∀ i : Fin 1, 0 ≤ sqrtFn0 (![1] i) := fun i => by
  rw [Fin.eq_zero i]; norm_num [sqrtFn0]

lemma hR_two : !![(2 : ℚ)]ᵀ * !![2] = (2 : ℚ) • !![2] := by
  ext i j
  rw [Fin.eq_zero i, Fin.eq_zero j]
  simp [Matrix.mul_apply, Fin.sum_univ_one]

lemma hdet_one :
    ((make_augmented_matrix sqrtFn0 !![2] !![(1 : ℚ)] ![1] ![1]).1ᵀ
      * Matrix.diagonal
          (make_augmented_matrix sqrtFn0 !![2] !![(1 : ℚ)] ![1] ![1]).2.2
      * (make_augmented_matrix sqrtFn0 !![2] !![(1 : ℚ)] ![1] ![1]).1).det
      ≠ 0 := by
  rw [Matrix.det_fin_one, quad_form_entry, Fintype.sum_sum_type,
    Fin.sum_univ_one, Fin.sum_univ_one]
  norm_num [make_augmented_matrix, sqrtFn0]

/-- **C1** (amended).  What `penalized_wls(x, y, s, weights)` actually
minimizes is the objective with square-rooted observation weights and a
doubled penalty, `Σ sqrt(wᵢ) (yᵢ − xᵢ·β)² + 2 βᵗ S β`: the source takes
`np.sqrt` of the stacked weights and augments with `matrix_sqrt(2*s)`.
Hypotheses: the external scalar root maps `1` to `1` and is nonnegative
on the weights, the external matrix root satisfies `rs2ᵀ rs2 = 2 S`, and
the augmented normal matrix is nonsingular. -/
theorem penalized_wls_minimizes_code_objective {n p : ℕ} (sqrtFn : ℚ → ℚ)
    (rs2 S : Matrix (Fin p) (Fin p) ℚ)
    (x : Matrix (Fin n) (Fin p) ℚ) (y w : Fin n → ℚ)
    (h1 : sqrtFn 1 = 1) (hw : ∀ i, 0 ≤ sqrtFn (w i))
    (hR : rs2ᵀ * rs2 = (2 : ℚ) • S)
    (hdet : ((make_augmented_matrix sqrtFn rs2 x y w).1ᵀ
        * Matrix.diagonal (make_augmented_matrix sqrtFn rs2 x y w).2.2
        * (make_augmented_matrix sqrtFn rs2 x y w).1).det ≠ 0)
    (β : Fin p → ℚ) :
    codePenObjective sqrtFn x y w S (penalized_wls sqrtFn rs2 x y w)
      ≤ codePenObjective sqrtFn x y w S β :=
  pwls_codePen_min sqrtFn rs2 S x y w h1 hw hR hdet β

/-- Witness for the amended C1 theorem at the concrete input of the
counterexample: all hypotheses are satisfiable and the returned vector
beats `β = [0]` on the code's objective. -/
theorem penalized_wls_minimizes_code_objective_witness :
    sqrtFn0 1 = 1
    ∧ (∀ i : Fin 1, 0 ≤ sqrtFn0 (![1] i))
    ∧ (!![(2 : ℚ)]ᵀ * !![2] = (2 : ℚ) • !![2])
    ∧ ((make_augmented_matrix sqrtFn0 !![2] !![(1 : ℚ)] ![1] ![1]).1ᵀ
        * Matrix.diagonal
            (make_augmented_matrix sqrtFn0 !![2] !![(1 : ℚ)] ![1] ![1]).2.2
        * (make_augmented_matrix sqrtFn0 !![2] !![(1 : ℚ)] ![1] ![1]).1).det ≠ 0
    ∧ codePenObjective sqrtFn0 !![(1 : ℚ)] ![1] ![1] !![2]
        (penalized_wls sqrtFn0 !![2] !![(1 : ℚ)] ![1] ![1])
      ≤ codePenObjective sqrtFn0 !![(1 : ℚ)] ![1] ![1] !![2] ![0] :=
  ⟨sqrtFn0_one, hw_ones, hR_two, hdet_one,
   penalized_wls_minimizes_code_objective sqrtFn0 !![2] !![2] !![(1 : ℚ)]
     ![1] ![1] sqrtFn0_one hw_ones hR_two hdet_one ![0]⟩

/-- **C2** (counterexample).  At `X = [[1]]`, `y = [1]`, `w = [4]` the
augmented weight vector built by `make_augmented_matrix` is not
`stack(w, ones(p))`: the source square-roots it, so its first entry is
`sqrt(4) = 2`, not `4`. -/
theorem make_augmented_matrix_weights_counterexample :
    (make_augmented_matrix sqrtFn0 !![2] !![(1 : ℚ)] ![1] ![4]).2.2
      ≠ Sum.elim ![4] (fun _ => 1) := by
  intro h
  have h0 := congrFun h (Sum.inl 0)
  norm_num [make_augmented_matrix, sqrtFn0] at h0

/-- **C2** (amended).  The augmented problem built by the solver is
`X_aug = stack(X, R)` where `R` is the external square root of the
*doubled* penalty (`Rᵗ R = 2 S`, not `S`), `y_aug = stack(y, zeros(p))`,
and `w_aug = sqrt(stack(w, ones(p)))` elementwise; the solver then
returns the ordinary weighted-least-squares minimizer of
`Σ w_augᵢ (y_augᵢ − x_augᵢ·β)²` on these augmented inputs (equivalently,
of the square-rooted-weights doubled-penalty objective). -/
theorem augmented_problem_description_and_wls_minimizer {n p : ℕ}
    (sqrtFn : ℚ → ℚ) (rs S : Matrix (Fin p) (Fin p) ℚ)
    (x : Matrix (Fin n) (Fin p) ℚ) (y w : Fin n → ℚ)
    (h1 : sqrtFn 1 = 1) (hw : ∀ i, 0 ≤ sqrtFn (w i))
    (hR : rsᵀ * rs = (2 : ℚ) • S)
    (hdet : ((make_augmented_matrix sqrtFn rs x y w).1ᵀ
        * Matrix.diagonal (make_augmented_matrix sqrtFn rs x y w).2.2
        * (make_augmented_matrix sqrtFn rs x y w).1).det ≠ 0)
    (β : Fin p → ℚ) :
    (make_augmented_matrix sqrtFn rs x y w).1 = Matrix.of (Sum.elim x rs)
    ∧ (make_augmented_matrix sqrtFn rs x y w).2.1
        = Sum.elim y (fun _ => 0)
    ∧ (make_augmented_matrix sqrtFn rs x y w).2.2
        = (fun i => sqrtFn (Sum.elim w (fun _ => 1) i))
    ∧ penalized_wls sqrtFn rs x y w
        = wls_fit_params (make_augmented_matrix sqrtFn rs x y w).1
            (make_augmented_matrix sqrtFn rs x y w).2.1
            (make_augmented_matrix sqrtFn rs x y w).2.2
    ∧ wlsObjective (make_augmented_matrix sqrtFn rs x y w).1
        (make_augmented_matrix sqrtFn rs x y w).2.1
        (make_augmented_matrix sqrtFn rs x y w).2.2
        (penalized_wls sqrtFn rs x y w)
      ≤ wlsObjective (make_augmented_matrix sqrtFn rs x y w).1
          (make_augmented_matrix sqrtFn rs x y w).2.1
          (make_augmented_matrix sqrtFn rs x y w).2.2 β
    ∧ codePenObjective sqrtFn x y w S (penalized_wls sqrtFn rs x y w)
        ≤ codePenObjective sqrtFn x y w S β := by
  have hwa : ∀ i, 0 ≤ (make_augmented_matrix sqrtFn rs x y w).2.2 i := by
    rintro (i | j)
    · exact hw i
    · show (0 : ℚ) ≤ sqrtFn 1
      rw [h1]; exact zero_le_one
  exact ⟨rfl, rfl, rfl, rfl,
    wls_optimal (make_augmented_matrix sqrtFn rs x y w).1
      (make_augmented_matrix sqrtFn rs x y w).2.1
      (make_augmented_matrix sqrtFn rs x y w).2.2 hwa hdet β,
    pwls_codePen_min sqrtFn rs S x y w h1 hw hR hdet β⟩

/-- Witness for the amended C2 theorem at the concrete input of the C1
counterexample. -/
theorem augmented_problem_description_and_wls_minimizer_witness :
    sqrtFn0 1 = 1
    ∧ (∀ i : Fin 1, 0 ≤ sqrtFn0 (![1] i))
    ∧ (!![(2 : ℚ)]ᵀ * !![2] = (2 : ℚ) • !![2])
    ∧ ((make_augmented_matrix sqrtFn0 !![2] !![(1 : ℚ)] ![1] ![1]).1ᵀ
        * Matrix.diagonal
            (make_augmented_matrix sqrtFn0 !![2] !![(1 : ℚ)] ![1] ![1]).2.2
        * (make_augmented_matrix sqrtFn0 !![2] !![(1 : ℚ)] ![1] ![1]).1).det
        ≠ 0
    ∧ ((make_augmented_matrix sqrtFn0 !![2] !![(1 : ℚ)] ![1] ![1]).1
          = Matrix.of (Sum.elim !![(1 : ℚ)] !![2])
      ∧ (make_augmented_matrix sqrtFn0 !![2] !![(1 : ℚ)] ![1] ![1]).2.1
          = Sum.elim ![1] (fun _ => 0)
      ∧ (make_augmented_matrix sqrtFn0 !![2] !![(1 : ℚ)] ![1] ![1]).2.2
          = (fun i => sqrtFn0 (Sum.elim ![1] (fun _ => 1) i))
      ∧ penalized_wls sqrtFn0 !![2] !![(1 : ℚ)] ![1] ![1]
          = wls_fit_params
              (make_augmented_matrix sqrtFn0 !![2] !![(1 : ℚ)] ![1] ![1]).1
              (make_augmented_matrix sqrtFn0 !![2] !![(1 : ℚ)] ![1] ![1]).2.1
              (make_augmented_matrix sqrtFn0 !![2] !![(1 : ℚ)] ![1] ![1]).2.2
      ∧ wlsObjective
          (make_augmented_matrix sqrtFn0 !![2] !![(1 : ℚ)] ![1] ![1]).1
          (make_augmented_matrix sqrtFn0 !![2] !![(1 : ℚ)] ![1] ![1]).2.1
          (make_augmented_matrix sqrtFn0 !![2] !![(1 : ℚ)] ![1] ![1]).2.2
          (penalized_wls sqrtFn0 !![2] !![(1 : ℚ)] ![1] ![1])
        ≤ wlsObjective
            (make_augmented_matrix sqrtFn0 !![2] !![(1 : ℚ)] ![1] ![1]).1
            (make_augmented_matrix sqrtFn0 !![2] !![(1 : ℚ)] ![1] ![1]).2.1
            (make_augmented_matrix sqrtFn0 !![2] !![(1 : ℚ)] ![1] ![1]).2.2
            ![0]
      ∧ codePenObjective sqrtFn0 !![(1 : ℚ)] ![1] ![1] !![2]
          (penalized_wls sqrtFn0 !![2] !![(1 : ℚ)] ![1] ![1])
        ≤ codePenObjective sqrtFn0 !![(1 : ℚ)] ![1] ![1] !![2] ![0]) :=
  ⟨sqrtFn0_one, hw_ones, hR_two, hdet_one,
   augmented_problem_description_and_wls_minimizer sqrtFn0 !![2] !![2]
     !![(1 : ℚ)] ![1] ![1] sqrtFn0_one hw_ones hR_two hdet_one ![0]⟩

/-- **C3** (counterexample).  With the all-zero penalty (`S = 0`, hence
`matrix_sqrt(2·S) = 0` per the spec's square-root contract), at
`X = [[1],[1]]`, `y = [0,1]`, `w = [1,4]` the solver returns `[2/3]`
(weighted least squares with the square-rooted weights `[1,2]`), while
plain weighted least squares on `(X, y, w)` gives `[4/5]`. -/
theorem zero_penalty_not_plain_wls_counterexample :
    penalized_wls sqrtFn0 (0 : Matrix (Fin 1) (Fin 1) ℚ)
        !![(1 : ℚ); 1] ![0, 1] ![1, 4]
      ≠ wls_fit_params !![(1 : ℚ); 1] ![0, 1] ![1, 4] := by
  intro h
  have h0 := congrFun h 0
  rw [penalized_wls_eq, wls_fit_params_p1, wls_fit_params_p1] at h0
  simp only [Fintype.sum_sum_type, Fin.sum_univ_two, Fin.sum_univ_one] at h0
  norm_num [make_augmented_matrix, sqrtFn0] at h0

/-- **C3** (amended).  With the all-zero penalty matrix the augmentation
contributes nothing, but the solver still square-roots the weights: the
returned coefficients equal plain weighted least squares on
`(X, y, sqrt(w))` — not on `(X, y, w)`.  (The hypothesis `rs = 0` is the
spec's contract for the external `matrix_sqrt` at the zero matrix.) -/
theorem zero_penalty_equals_sqrt_weighted_wls {n p : ℕ} (sqrtFn : ℚ → ℚ)
    (rs : Matrix (Fin p) (Fin p) ℚ) (x : Matrix (Fin n) (Fin p) ℚ)
    (y w : Fin n → ℚ) (hrs : rs = 0) :
    penalized_wls sqrtFn rs x y w
      = wls_fit_params x y (fun i => sqrtFn (w i)) := by
  subst hrs
  rw [penalized_wls_eq, wls_fit_params, wls_fit_params, aug_normal_matrix,
    aug_rhs_vec]
  have h0 : (0 : Matrix (Fin p) (Fin p) ℚ)ᵀ
      * Matrix.diagonal (fun _ : Fin p => sqrtFn 1)
      * (0 : Matrix (Fin p) (Fin p) ℚ) = 0 := by
    simp
  rw [h0, add_zero]

/-- Witness for the amended C3 theorem at the counterexample's input. -/
theorem zero_penalty_equals_sqrt_weighted_wls_witness :
    ((0 : Matrix (Fin 1) (Fin 1) ℚ) = 0)
    ∧ penalized_wls sqrtFn0 (0 : Matrix (Fin 1) (Fin 1) ℚ)
          !![(1 : ℚ); 1] ![0, 1] ![1, 4]
        = wls_fit_params !![(1 : ℚ); 1] ![0, 1]
            (fun i => sqrtFn0 (![1, 4] i)) :=
  ⟨rfl, zero_penalty_equals_sqrt_weighted_wls sqrtFn0 0 !![(1 : ℚ); 1]
    ![0, 1] ![1, 4] rfl⟩

/-! ## Claims C4, C5, C6, C8, C9, C10 -/

/-- **C4**.  With `max_iter = 0` the loop body never runs: `_fit_pirls`
returns the coefficients (`start_params`), μ and deviance exactly as
computed by the initialization step, and the deviance history holds only
the `np.inf` sentinel and the initial deviance.  The hypothesis is the
family-interface law that `fitted` inverts the canonical mapping
`predict` (spec §4.2/§6), which makes the recomputed
`fitted(lin_pred)` coincide with the initialization's μ on the
`start_params = None` path. -/
theorem fit_pirls_maxiter_zero_init {n p : ℕ} (P : PirlsProblem n p)
    (start_params : Option (Fin p → ℚ)) (tol : ℚ)
    (hinv : ∀ m, P.fam.fitted (P.fam.predict m) = m) :
    fit_pirls P start_params 0 tol
      = .ok { params := start_params
              normalized_cov_params := none
              scale := P.fam.estimate_scale (pirls_init_mu P start_params)
              mu := pirls_init_mu P start_params
              hist_params := [none, start_params]
              hist_dev := [none, some (P.fam.deviance P.endog
                (pirls_init_mu P start_params))]
              iteration := 1
              converged := false
              method := "PIRLS" } := by
  have hmu : P.fam.fitted (pirls_init_linpred P start_params)
      = pirls_init_mu P start_params := by
    cases start_params with
    | none => exact hinv _
    | some sp => rfl
  rw [fit_pirls, if_pos rfl, hmu]

/-- A trivial identity-link family on one observation, used to
instantiate the loop theorems. -/
def famId : ExpFamily 1 :=
  { starting_mu := fun y => y
    predict := fun m => m
    fitted := fun lp => lp
    deviance := fun y m => ∑ i, (y i - m i) ^ 2
    weights := fun _ => fun _ => 1
    link_deriv := fun _ => fun _ => 1
    estimate_scale := fun _ => 1 }

/-- A concrete one-observation, one-column problem. -/
def Pc4 : PirlsProblem 1 1 :=
  { fam := famId
    endog := ![1]
    wlsexog := !![1]
    rs2 := 0
    sqrtFn := sqrtFn0
    offset := ![0]
    data_weights := ![1] }

/-- Witness for C4 at a concrete model with `start_params = None`. -/
theorem fit_pirls_maxiter_zero_init_witness :
    (∀ m, Pc4.fam.fitted (Pc4.fam.predict m) = m)
    ∧ fit_pirls Pc4 none 0 (1/100)
      = .ok { params := none
              normalized_cov_params := none
              scale := Pc4.fam.estimate_scale (pirls_init_mu Pc4 none)
              mu := pirls_init_mu Pc4 none
              hist_params := [none, none]
              hist_dev := [none, some (Pc4.fam.deviance Pc4.endog
                (pirls_init_mu Pc4 none))]
              iteration := 1
              converged := false
              method := "PIRLS" } :=
  ⟨fun _ => rfl, fit_pirls_maxiter_zero_init Pc4 none (1/100) (fun _ => rfl)⟩

/-- **C5**.  In every iteration of the loop, if the computed μ is
numerically indistinguishable from the (single-valued, `n ≠ 1`)
response, the loop raises `PerfectSeparationError` at once: the whole
invocation evaluates to the error, so no result object is produced and
the partially computed state is discarded. -/
theorem pirls_perfect_separation_raises {n p : ℕ} (P : PirlsProblem n p)
    (tol : ℚ) (k rem : ℕ) (st : LoopState n p)
    (hsep : perfect_sep_check P.endog (pirls_step P st).mu = true) :
    runLoop P tol k (rem + 1) st = .error .perfectSeparation := by
  simp [runLoop, hsep]

/-- A family whose fitted means are identically zero, on two
observations. -/
def famZero : ExpFamily 2 :=
  { starting_mu := fun y => y
    predict := fun m => m
    fitted := fun _ => fun _ => 0
    deviance := fun y m => ∑ i, (y i - m i) ^ 2
    weights := fun _ => fun _ => 1
    link_deriv := fun _ => fun _ => 1
    estimate_scale := fun _ => 1 }

/-- A two-observation problem whose response is identically zero, so the
first iteration already reproduces it perfectly. -/
def Pc5 : PirlsProblem 2 1 :=
  { fam := famZero
    endog := fun _ => 0
    wlsexog := !![1; 1]
    rs2 := 0
    sqrtFn := sqrtFn0
    offset := fun _ => 0
    data_weights := fun _ => 1 }

/-- Witness for C5: at `Pc5` the first iteration's μ matches the
response everywhere and the loop errors out. -/
theorem pirls_perfect_separation_raises_witness :
    perfect_sep_check Pc5.endog
        (pirls_step Pc5 (pirls_init_state Pc5 none)).mu = true
    ∧ runLoop Pc5 (1/100) 0 1 (pirls_init_state Pc5 none)
        = .error .perfectSeparation :=
  ⟨by norm_num [perfect_sep_check, pirls_step, Pc5, famZero, sepTol],
   pirls_perfect_separation_raises Pc5 (1/100) 0 0
     (pirls_init_state Pc5 none)
     (by norm_num [perfect_sep_check, pirls_step, Pc5, famZero, sepTol])⟩

/-- **C6**.  Constructing a `GLMGam` with an alpha sequence whose length
differs from the number of smooth terms fails at construction time with
`InvalidAlphaLength`, before any fitting work begins.  (The length check
lives in the externally modelled `MultivariateGamPenalty`; `_check_alpha`
itself only normalizes the input.) -/
theorem glmgam_init_invalid_alpha_length (k_smooth : ℕ) (l : List ℚ)
    (h : l.length ≠ k_smooth) :
    glmgam_init k_smooth (.seq l) = .error .invalidAlphaLength := by
  simp [glmgam_init, check_alpha, multivariate_gam_penalty_init, h]

/-- Witness for C6: one alpha for two smooth terms is rejected. -/
theorem glmgam_init_invalid_alpha_length_witness :
    ([(1 : ℚ)].length ≠ 2)
    ∧ glmgam_init 2 (.seq [(1 : ℚ)]) = .error .invalidAlphaLength :=
  ⟨by decide, glmgam_init_invalid_alpha_length 2 [(1 : ℚ)] (by decide)⟩

/-- **C8**.  In every iteration the loop solves the penalized problem at
the IRLS weight vector `data_weights ⊙ family.weights(μ)` and working
response `lin_pred + link.deriv(μ) ⊙ (y − μ) − offset`, then updates the
linear predictor to `X·coefficients + offset` and μ to
`family.fitted(linear predictor)`. -/
theorem pirls_step_update_equations {n p : ℕ} (P : PirlsProblem n p)
    (st : LoopState n p) :
    (pirls_step P st).lin_pred
      = (fun i => (P.wlsexog *ᵥ (penalized_wls P.sqrtFn P.rs2 P.wlsexog
          (fun i => st.lin_pred i
            + P.fam.link_deriv st.mu i * (P.endog i - st.mu i) - P.offset i)
          (fun i => P.data_weights i * P.fam.weights st.mu i))) i
          + P.offset i)
    ∧ (pirls_step P st).mu = P.fam.fitted ((pirls_step P st).lin_pred) :=
  ⟨rfl, rfl⟩

/-- **C9**.  The hat-matrix diagonal at observation `i` equals the
quadratic form `wexogᵢ · (scale · normalized_cov) · wexogᵢᵗ` with
`wexog = sqrt(weights) ⊙ X`, and `edf` is the same per-term computation
summed over the coefficient axis instead of the observation axis. -/
theorem hat_matrix_diag_quadratic_form {n p : ℕ} (sqrtFn : ℚ → ℚ)
    (weights : Fin n → ℚ) (exog : Matrix (Fin n) (Fin p) ℚ)
    (ncov : Matrix (Fin p) (Fin p) ℚ) (scale : ℚ) :
    (∀ i, get_hat_matrix_diag sqrtFn weights exog ncov scale i
        = wexog_of sqrtFn weights exog i
            ⬝ᵥ ((scale • ncov) *ᵥ (wexog_of sqrtFn weights exog i)))
    ∧ (∀ j, edf sqrtFn weights exog ncov scale j
        = ∑ i, wexog_of sqrtFn weights exog i j
            * ((scale • ncov) *ᵥ (wexog_of sqrtFn weights exog i)) j) := by
  have hterm : ∀ i j,
      hat_matrix_terms sqrtFn weights exog ncov scale i j
        = wexog_of sqrtFn weights exog i j
            * ((scale • ncov) *ᵥ (wexog_of sqrtFn weights exog i)) j := by
    intro i j
    show wexog_of sqrtFn weights exog i j
        * ((scale • ncov) * (wexog_of sqrtFn weights exog)ᵀ) j i = _
    congr 1
  constructor
  · intro i
    rw [get_hat_matrix_diag, Matrix.dotProduct]
    exact Finset.sum_congr rfl fun j _ => hterm i j
  · intro j
    rw [edf]
    exact Finset.sum_congr rfl fun i _ => hterm i j

/-- **C10**.  Under `method = 'PIRLS'`, `GLMGam.fit` does not forward
`start_params`, `maxiter` or `tol` to `_fit_pirls` (which runs with its
own defaults), so two `fit` calls differing only in those arguments
produce identical results. -/
theorem glmgam_fit_ignores_start_maxiter_tol {n p : ℕ}
    (P : PirlsProblem n p)
    (superFit : Option (Fin p → ℚ) → ℕ → ℚ →
      Except FitError (FitResult n p))
    (sp1 sp2 : Option (Fin p → ℚ)) (mi1 mi2 : ℕ) (tol1 tol2 : ℚ) :
    glmgam_fit P superFit sp1 mi1 "PIRLS" tol1
      = glmgam_fit P superFit sp2 mi2 "PIRLS" tol2 := by
  have hlow : str_lower "PIRLS" = "pirls" := by decide
  rw [glmgam_fit, glmgam_fit, if_pos hlow, if_pos hlow]

/-! ## Claim C7: exhausting `maxiter` is not an error -/

lemma penalized_wls_results_fst {n p : ℕ} (sqrtFn : ℚ → ℚ)
    (rs2 : Matrix (Fin p) (Fin p) ℚ)
    (x : Matrix (Fin n) (Fin p) ℚ) (y w : Fin n → ℚ) :
    (penalized_wls_results sqrtFn rs2 x y w).1
      = penalized_wls sqrtFn rs2 x y w := rfl

/-- If no iteration triggers the perfect-separation or convergence exit,
the loop runs to exhaustion and returns the iterated state with the
Python loop variable left at its last value. -/
lemma runLoop_no_stop {n p : ℕ} (P : PirlsProblem n p) (tol : ℚ) :
    ∀ (rem k : ℕ) (st : LoopState n p),
      (∀ j, j < rem →
        perfect_sep_check P.endog
            (pirls_step P ((pirls_step_noconv P)^[j] st)).mu = false
        ∧ check_convergence
            (pirls_step P ((pirls_step_noconv P)^[j] st)).hist_dev tol
              = false) →
      runLoop P tol k rem st
        = .ok ((pirls_step_noconv P)^[rem] st, k + rem - 1) := by
  intro rem
  induction rem with
  | zero =>
    intro k st _
    simp [runLoop]
  | succ rem ih =>
    intro k st h
    have h0 := h 0 (Nat.succ_pos rem)
    rw [Function.iterate_zero_apply] at h0
    have hrec := ih (k + 1) (pirls_step_noconv P st) (fun j hj => by
      have hh := h (j + 1) (Nat.succ_lt_succ hj)
      rwa [Function.iterate_succ_apply] at hh)
    calc runLoop P tol k (rem + 1) st
        = runLoop P tol (k + 1) rem (pirls_step_noconv P st) := by
          simp only [runLoop, h0.1, h0.2, Bool.false_eq_true, if_false]
          rfl
      _ = .ok ((pirls_step_noconv P)^[rem] (pirls_step_noconv P st),
              k + 1 + rem - 1) := hrec
      _ = .ok ((pirls_step_noconv P)^[rem + 1] st, k + (rem + 1) - 1) := by
          rw [← Function.iterate_succ_apply]
          have : k + 1 + rem - 1 = k + (rem + 1) - 1 := by omega
          rw [this]

/-- **C7**.  If every one of the `maxiter` iterations passes the
perfect-separation and convergence checks without stopping, the loop
raises no exception: `_fit_pirls` returns a result carrying the last
computed state with `converged = false`. -/
theorem fit_pirls_maxiter_exhausted_no_exception {n p : ℕ}
    (P : PirlsProblem n p) (sp : Option (Fin p → ℚ)) (maxiter : ℕ)
    (tol : ℚ) (hm : 0 < maxiter)
    (h : ∀ j, j < maxiter →
      perfect_sep_check P.endog
          (pirls_step P
            ((pirls_step_noconv P)^[j] (pirls_init_state P sp))).mu = false
      ∧ check_convergence
          (pirls_step P
            ((pirls_step_noconv P)^[j] (pirls_init_state P sp))).hist_dev
          tol = false) :
    fit_pirls P sp maxiter tol
      = .ok { params :=
                ((pirls_step_noconv P)^[maxiter]
                  (pirls_init_state P sp)).wls_params
              normalized_cov_params :=
                ((pirls_step_noconv P)^[maxiter]
                  (pirls_init_state P sp)).wls_ncov
              scale := P.fam.estimate_scale
                ((pirls_step_noconv P)^[maxiter] (pirls_init_state P sp)).mu
              mu := ((pirls_step_noconv P)^[maxiter]
                (pirls_init_state P sp)).mu
              hist_params := ((pirls_step_noconv P)^[maxiter]
                (pirls_init_state P sp)).hist_params
              hist_dev := ((pirls_step_noconv P)^[maxiter]
                (pirls_init_state P sp)).hist_dev
              iteration := maxiter
              converged := false
              method := "PIRLS" } := by
  rw [fit_pirls, if_neg (Nat.pos_iff_ne_zero.mp hm)]
  rw [runLoop_no_stop P tol maxiter 0 (pirls_init_state P sp) h]
  have hconv : ((pirls_step_noconv P)^[maxiter]
      (pirls_init_state P sp)).converged = false := by
    obtain ⟨m, rfl⟩ := Nat.exists_eq_succ_of_ne_zero (Nat.pos_iff_ne_zero.mp hm)
    rw [Function.iterate_succ_apply']
    rfl
  simp [hconv]
  omega

/-- A two-observation identity-link family with squared-error
deviance. -/
def famC7 : ExpFamily 2 :=
  { starting_mu := fun y => y
    predict := fun m => m
    fitted := fun lp => lp
    deviance := fun y m => ∑ i, (y i - m i) ^ 2
    weights := fun _ => fun _ => 1
    link_deriv := fun _ => fun _ => 1
    estimate_scale := fun _ => 1 }

/-- A concrete problem where one iteration from `start_params = [0]`
neither converges (at tolerance `1/100`) nor separates. -/
def Pc7 : PirlsProblem 2 1 :=
  { fam := famC7
    endog := ![0, 3]
    wlsexog := !![1; 1]
    rs2 := 0
    sqrtFn := sqrtFn0
    offset := fun _ => 0
    data_weights := fun _ => 1 }

/-- The first P-IRLS update at `Pc7` solves to the coefficient `3/2`. -/
lemma c7_beta :
    penalized_wls Pc7.sqrtFn Pc7.rs2 Pc7.wlsexog
      (fun i => (pirls_init_state Pc7 (some ![0])).lin_pred i
        + Pc7.fam.link_deriv (pirls_init_state Pc7 (some ![0])).mu i
            * (Pc7.endog i - (pirls_init_state Pc7 (some ![0])).mu i)
        - Pc7.offset i)
      (fun i => Pc7.data_weights i
        * Pc7.fam.weights (pirls_init_state Pc7 (some ![0])).mu i)
      = ![3/2] := by
  rw [penalized_wls_eq, wls_fit_params_p1]
  funext j
  rw [Fintype.sum_sum_type, Fintype.sum_sum_type, Fin.sum_univ_two,
    Fin.sum_univ_two, Fin.sum_univ_one, Fin.sum_univ_one]
  norm_num [make_augmented_matrix, sqrtFn0, Pc7, famC7, pirls_init_state,
    pirls_init_mu, pirls_init_linpred, Matrix.mulVec, Matrix.dotProduct,
    Fin.sum_univ_one]

/-- μ after the first iteration at `Pc7`. -/
lemma c7_step_mu :
    (pirls_step Pc7 (pirls_init_state Pc7 (some ![0]))).mu = ![3/2, 3/2] := by
  simp only [pirls_step, penalized_wls_results_fst, c7_beta]
  funext i
  fin_cases i <;>
    norm_num [Pc7, famC7, Matrix.mulVec, Matrix.dotProduct, Fin.sum_univ_one]

/-- Deviance history after the first iteration at `Pc7`. -/
lemma c7_step_histdev :
    (pirls_step Pc7 (pirls_init_state Pc7 (some ![0]))).hist_dev
      = [none, some 9, some (9/2)] := by
  simp only [pirls_step, penalized_wls_results_fst, c7_beta]
  have h1 : (pirls_init_state Pc7 (some ![0])).hist_dev
      = [none, some 9] := by
    simp only [pirls_init_state]
    norm_num [Pc7, famC7, pirls_init_mu, pirls_init_linpred, Fin.sum_univ_two,
      Matrix.mulVec, Matrix.dotProduct, Fin.sum_univ_one]
  rw [h1]
  norm_num [Pc7, famC7, Fin.sum_univ_two, Matrix.mulVec, Matrix.dotProduct,
    Fin.sum_univ_one]

/-- At `Pc7` the single iteration triggers neither exit. -/
lemma c7_cond : ∀ j, j < 1 →
    perfect_sep_check Pc7.endog
        (pirls_step Pc7
          ((pirls_step_noconv Pc7)^[j]
            (pirls_init_state Pc7 (some ![0])))).mu = false
    ∧ check_convergence
        (pirls_step Pc7
          ((pirls_step_noconv Pc7)^[j]
            (pirls_init_state Pc7 (some ![0])))).hist_dev (1/100)
          = false := by
  intro j hj
  have hj0 : j = 0 := by omega
  subst hj0
  rw [Function.iterate_zero_apply]
  constructor
  · rw [perfect_sep_check, c7_step_mu]
    have hf : (decide (∀ i : Fin 2,
        |(![3/2, 3/2] : Fin 2 → ℚ) i - Pc7.endog i| ≤ sepTol)) = false := by
      apply decide_eq_false
      intro hall
      have h1 := hall 1
      rw [abs_le] at h1
      norm_num [Pc7, sepTol] at h1
    rw [hf, Bool.and_false]
  · rw [c7_step_histdev]
    show decide (|(9/2 : ℚ) - 9| ≤ 1/100) = false
    apply decide_eq_false
    intro hle
    rw [abs_le] at hle
    have h1 := hle.1
    norm_num at h1

/-- Witness for C7: at `Pc7` with `maxiter = 1` the fit returns (no
exception) the first-iteration state with `converged = false`. -/
theorem fit_pirls_maxiter_exhausted_no_exception_witness :
    (0 < 1)
    ∧ (∀ j, j < 1 →
      perfect_sep_check Pc7.endog
          (pirls_step Pc7
            ((pirls_step_noconv Pc7)^[j]
              (pirls_init_state Pc7 (some ![0])))).mu = false
      ∧ check_convergence
          (pirls_step Pc7
            ((pirls_step_noconv Pc7)^[j]
              (pirls_init_state Pc7 (some ![0])))).hist_dev (1/100)
            = false)
    ∧ fit_pirls Pc7 (some ![0]) 1 (1/100)
      = .ok { params :=
                ((pirls_step_noconv Pc7)^[1]
                  (pirls_init_state Pc7 (some ![0]))).wls_params
              normalized_cov_params :=
                ((pirls_step_noconv Pc7)^[1]
                  (pirls_init_state Pc7 (some ![0]))).wls_ncov
              scale := Pc7.fam.estimate_scale
                ((pirls_step_noconv Pc7)^[1]
                  (pirls_init_state Pc7 (some ![0]))).mu
              mu := ((pirls_step_noconv Pc7)^[1]
                (pirls_init_state Pc7 (some ![0]))).mu
              hist_params := ((pirls_step_noconv Pc7)^[1]
                (pirls_init_state Pc7 (some ![0]))).hist_params
              hist_dev := ((pirls_step_noconv Pc7)^[1]
                (pirls_init_state Pc7 (some ![0]))).hist_dev
              iteration := 1
              converged := false
              method := "PIRLS" } :=
  ⟨Nat.one_pos, c7_cond,
   fit_pirls_maxiter_exhausted_no_exception Pc7 (some ![0]) 1 (1/100)
     Nat.one_pos c7_cond⟩

end GamCore
